import Mathlib

/-!
# Verification of the ReviewGuardFHE contract core

Shallow embedding of `src/contracts/review_guard_fhe.sol` (Solidity 0.8,
checked arithmetic on `uint256`).  Solidity mappings are modelled as
association lists with the zero value as default (reading an absent key
yields the zero-initialized struct, exactly as `mapping` does); machine
integers are `Nat` with explicit overflow reverts at `2 ^ 256`
(Solidity 0.8 reverts the whole call on overflow); each external function
is a pure function `ContractState → Except Err ContractState`, a revert
leaving the pre-state untouched.  The FHE library (`FHE.fromExternal` /
`FHE.isInitialized` and `FHE.checkSignatures`) is the external
confidential-value service: it is modelled as an injected oracle `Env`
whose verdicts the contract trusts, with ciphertext handles as `Nat`
(the zero handle being the value of an uninitialized `euint32`).
-/

/-- Wrap-around modulus of the EVM word size; Solidity 0.8 checked
arithmetic reverts instead of wrapping at this bound. -/
def U256 : Nat := 2 ^ 256

/-- Exclusive upper bound of `uint32`, the type `abi.decode` targets. -/
def U32 : Nat := 2 ^ 32

/-- Read from an association list with a default value, mirroring a
Solidity `mapping`: an absent key reads as the zero value `d`. -/
def assocGet {α β : Type} [DecidableEq α] (d : β) : List (α × β) → α → β
  | [], _ => d
  | (k', v) :: rest, k => if k' = k then v else assocGet d rest k

/-- Write to an association list, mirroring a Solidity `mapping` store:
replace the binding of the key, or append one if absent. -/
def assocSet {α β : Type} [DecidableEq α] : List (α × β) → α → β → List (α × β)
  | [], k, v => [(k, v)]
  | (k', v') :: rest, k, v =>
      if k' = k then (k, v) :: rest else (k', v') :: assocSet rest k v

/-- The `Review` struct of the contract.  `encryptedScore` is the opaque
ciphertext handle (`euint32`), `reviewer` an address rendered as `Nat`. -/
structure Review where
  encryptedScore : Nat
  weight : Nat
  departmentId : Nat
  reviewer : Nat
  timestamp : Nat
  decryptedScore : Nat
  isVerified : Bool
deriving DecidableEq, Repr

/-- The zero-initialized `Review`, as read from a mapping at an absent key. -/
def defaultReview : Review :=
  { encryptedScore := 0, weight := 0, departmentId := 0, reviewer := 0
    timestamp := 0, decryptedScore := 0, isVerified := false }

/-- The `Employee` struct; its `reviews` mapping becomes an association
list keyed by the review identifier string. -/
structure Employee where
  employeeId : String
  name : String
  totalScore : Nat
  reviewCount : Nat
  departmentId : Nat
  reviews : List (String × Review)
deriving DecidableEq, Repr

/-- The zero-initialized `Employee`. -/
def defaultEmployee : Employee :=
  { employeeId := "", name := "", totalScore := 0, reviewCount := 0
    departmentId := 0, reviews := [] }

/-- Contract storage: `employees`, the `departmentEmployees` index and the
`employeeExists` flag mapping (the set of ids mapped to `true`). -/
structure ContractState where
  employees : List (String × Employee)
  departmentEmployees : List (Nat × List String)
  employeeExists : List String
deriving DecidableEq, Repr

/-- Storage right after deployment: every mapping is empty. -/
def initState : ContractState :=
  { employees := [], departmentEmployees := [], employeeExists := [] }

/-- The external confidential-value service (the FHE precompiles), injected
as an oracle.  `ingest ct proof` returns the handle produced by
`FHE.fromExternal` when the input proof is accepted and the handle is
initialized, and `none` when either check rejects; `attestOk h v proof`
is the verdict of `FHE.checkSignatures` on handle `h`, claimed clear
value `v` and decryption proof `proof`. -/
structure Env where
  ingest : Nat → Nat → Option Nat
  attestOk : Nat → Nat → Nat → Bool

/-- The failure kinds surfaced by reverts of the contract: the seven
`require` messages plus the two Solidity panics (checked-arithmetic
overflow and `abi.decode` failure). -/
inductive Err where
  | notFound
  | alreadyExists
  | invalidInput
  | departmentMismatch
  | invalidProof
  | alreadyVerified
  | emptyAggregation
  | overflowPanic
  | decodePanic
deriving DecidableEq, Repr

/-- The review identifier derived at line 51 of the contract,
`abi.encodePacked(employeeId, "_", uint256(block.timestamp))`; the raw
32-byte timestamp suffix is rendered as its decimal string, which is
likewise injective in `(employeeId, timestamp)`. -/
def deriveReviewId (employeeId : String) (ts : Nat) : String :=
  employeeId ++ "_" ++ toString ts

/-- `addEmployee` (contract lines 107-123).  The field-by-field store into
`employees[employeeId]` keeps the struct's `reviews` mapping, so the model
updates the old record rather than replacing it wholesale. -/
def addEmployee (s : ContractState) (employeeId nm : String)
    (departmentId : Nat) : Except Err ContractState :=
  if employeeId ∈ s.employeeExists then .error .alreadyExists
  else
    let old := assocGet defaultEmployee s.employees employeeId
    let newEmployee :=
      { old with employeeId := employeeId, name := nm
                 departmentId := departmentId, totalScore := 0, reviewCount := 0 }
    .ok { s with
      employees := assocSet s.employees employeeId newEmployee
      employeeExists := employeeId :: s.employeeExists
      departmentEmployees := assocSet s.departmentEmployees departmentId
        (assocGet [] s.departmentEmployees departmentId ++ [employeeId]) }

/-- `submitReview` (contract lines 36-66).  The checks appear in source
order: existence, positive weight, the FHE ingest (`FHE.fromExternal` +
`FHE.isInitialized`, line 46), and only then the department match
(line 49).  On success the review at the derived id is written
unconditionally, overwriting whatever was stored there.  `FHE.allowThis`
and `FHE.makePubliclyDecryptable` act only on the external service and
touch no contract storage. -/
def submitReview (env : Env) (s : ContractState) (employeeId : String)
    (encryptedScore inputProof weight departmentId sender ts : Nat) :
    Except Err ContractState :=
  if employeeId ∈ s.employeeExists then
    if weight = 0 then .error .invalidInput
    else
      match env.ingest encryptedScore inputProof with
      | none => .error .invalidProof
      | some handle =>
        let employee := assocGet defaultEmployee s.employees employeeId
        if employee.departmentId = departmentId then
          let rid := deriveReviewId employeeId ts
          let newReview : Review :=
            { encryptedScore := handle, weight := weight
              departmentId := departmentId, reviewer := sender
              timestamp := ts, decryptedScore := 0, isVerified := false }
          let employee2 :=
            { employee with reviews := assocSet employee.reviews rid newReview }
          .ok { s with employees := assocSet s.employees employeeId employee2 }
        else .error .departmentMismatch
  else .error .notFound

/-- `verifyReview` (contract lines 68-93).  There is no review-existence
check: the review is read straight from the mapping, so an absent id
yields `defaultReview`.  Checks in source order: employee existence, the
`!review.isVerified` guard, `FHE.checkSignatures` (the attestation
oracle), then `abi.decode(..., (uint32))` which reverts unless the clear
value fits `uint32`; the accumulation `totalScore += decodedValue *
review.weight` and `reviewCount++` are checked `uint256` arithmetic, an
overflow reverting the whole call. -/
def verifyReview (env : Env) (s : ContractState) (employeeId reviewId : String)
    (clearValue proof : Nat) : Except Err ContractState :=
  if employeeId ∈ s.employeeExists then
    let employee := assocGet defaultEmployee s.employees employeeId
    let review := assocGet defaultReview employee.reviews reviewId
    if review.isVerified then .error .alreadyVerified
    else if env.attestOk review.encryptedScore clearValue proof = false then
      .error .invalidProof
    else if U32 ≤ clearValue then .error .decodePanic
    else if U256 ≤ employee.totalScore + clearValue * review.weight then
      .error .overflowPanic
    else if U256 ≤ employee.reviewCount + 1 then .error .overflowPanic
    else
      let review2 := { review with decryptedScore := clearValue, isVerified := true }
      let employee2 :=
        { employee with
            reviews := assocSet employee.reviews reviewId review2
            totalScore := employee.totalScore + clearValue * review.weight
            reviewCount := employee.reviewCount + 1 }
      .ok { s with employees := assocSet s.employees employeeId employee2 }
  else .error .notFound

/-- `calculateFinalScore` (contract lines 95-105): truncating `uint256`
division, overwriting `totalScore` in place. -/
def calculateFinalScore (s : ContractState) (employeeId : String) :
    Except Err ContractState :=
  if employeeId ∈ s.employeeExists then
    let employee := assocGet defaultEmployee s.employees employeeId
    if employee.reviewCount = 0 then .error .emptyAggregation
    else
      let employee2 :=
        { employee with totalScore := employee.totalScore / employee.reviewCount }
      .ok { s with employees := assocSet s.employees employeeId employee2 }
  else .error .notFound

/-- Whether a call returned successfully. -/
def isOkE : Except Err ContractState → Bool
  | .ok _ => true
  | .error _ => false

/-- One call through the public mutating interface, with the transaction
context (`msg.sender`, `block.timestamp`) carried as operation fields;
the view functions mutate nothing and are omitted from traces. -/
inductive Op where
  | addEmployee (employeeId nm : String) (departmentId : Nat)
  | submitReview (employeeId : String)
      (encryptedScore inputProof weight departmentId sender ts : Nat)
  | verifyReview (employeeId reviewId : String) (clearValue proof : Nat)
  | calculateFinalScore (employeeId : String)
deriving DecidableEq, Repr

/-- Dispatch one operation. -/
def runOp (env : Env) (s : ContractState) : Op → Except Err ContractState
  | .addEmployee e nm d => addEmployee s e nm d
  | .submitReview e ct prf w d snd ts => submitReview env s e ct prf w d snd ts
  | .verifyReview e rid v prf => verifyReview env s e rid v prf
  | .calculateFinalScore e => calculateFinalScore s e

/-- Transaction semantics: a revert leaves storage untouched. -/
def step (env : Env) (s : ContractState) (op : Op) : ContractState :=
  match runOp env s op with
  | .ok s' => s'
  | .error _ => s

/-- Run a sequence of calls from a given state. -/
def execFrom (env : Env) (s : ContractState) (ops : List Op) : ContractState :=
  ops.foldl (step env) s

/-- Run a sequence of calls from deployment: the states reachable through
the public interface. -/
def execTrace (env : Env) (ops : List Op) : ContractState :=
  execFrom env initState ops

/-- The employee record stored under an id (zero record when absent). -/
def getEmp (s : ContractState) (e : String) : Employee :=
  assocGet defaultEmployee s.employees e

/-- The review stored under an employee and review id (zero record when
absent). -/
def getRev (s : ContractState) (e rid : String) : Review :=
  assocGet defaultReview (getEmp s e).reviews rid

/-- Contribution of one review to the verified-review count. -/
def vBit (r : Review) : Nat := if r.isVerified then 1 else 0

/-- Contribution of one review to the verified weighted sum. -/
def vContrib (r : Review) : Nat :=
  if r.isVerified then r.decryptedScore * r.weight else 0

/-- Number of stored reviews with `verified == true`. -/
def verifiedCount : List (String × Review) → Nat
  | [] => 0
  | (_, r) :: rest => vBit r + verifiedCount rest

/-- Weighted sum `Σ decryptedScore * weight` over verified stored reviews. -/
def verifiedSum : List (String × Review) → Nat
  | [] => 0
  | (_, r) :: rest => vContrib r + verifiedSum rest

/-- A submit whose derived id currently holds a verified review would
silently reset it; traces excluding this are the well-behaved ones. -/
def opOk (s : ContractState) : Op → Bool
  | .submitReview e _ _ _ _ _ ts => !(getRev s e (deriveReviewId e ts)).isVerified
  | _ => true

/-- No operation of the trace overwrites an already-verified review. -/
def noVerifiedOverwriteB (env : Env) : ContractState → List Op → Bool
  | _, [] => true
  | s, op :: rest => opOk s op && noVerifiedOverwriteB env (step env s op) rest

/-- The operation is not a `calculateFinalScore` for this employee. -/
def opNotCalcFor (e : String) : Op → Bool
  | .calculateFinalScore f => !(f = e : Bool)
  | _ => true

/-- `calculateFinalScore` is never called for this employee in the trace. -/
def noCalcFor (e : String) (ops : List Op) : Bool :=
  ops.all (opNotCalcFor e)

/-- The operation is not a `submitReview` for employee `e` whose derived
review id is `rid` — the only kind of call that can touch an existing
review at `(e, rid)` other than verifying it. -/
def opAvoids (e rid : String) : Op → Bool
  | Op.submitReview e2 _ _ _ _ _ ts => !(e2 == e && deriveReviewId e2 ts == rid)
  | _ => true

/-- No `submitReview` of the trace derives review id `rid` under employee
`e`; collisions on other reviews or other employees remain allowed. -/
def noSubmitDeriving (e rid : String) (ops : List Op) : Bool :=
  ops.all (opAvoids e rid)

/-- Ids not flagged in `employeeExists` still read as the zero record:
holds in every reachable state since every write is guarded by the flag. -/
def InvAux (s : ContractState) : Prop :=
  ∀ e, e ∉ s.employeeExists → getEmp s e = defaultEmployee

/-- Aggregation invariant of the spec: each employee's `reviewCount`
equals the number of its stored reviews with `verified == true`. -/
def CountInv (s : ContractState) : Prop :=
  ∀ e, (getEmp s e).reviewCount = verifiedCount (getEmp s e).reviews

/-- Score invariant of the spec for one employee: `totalScore` equals
`Σ decryptedScore * weight` over its verified reviews. -/
def SumInv (s : ContractState) (e : String) : Prop :=
  (getEmp s e).totalScore = verifiedSum (getEmp s e).reviews

/-- Test oracle that accepts every proof and attestation, handing out
handle `ct + 1` for ciphertext `ct`. -/
def envAccept : Env :=
  { ingest := fun ct _ => some (ct + 1), attestOk := fun _ _ _ => true }

/-- Test oracle that rejects every proof and attestation. -/
def envReject : Env :=
  { ingest := fun _ _ => none, attestOk := fun _ _ _ => false }

deriving instance DecidableEq for Except

/-- The storage produced by a successful `addEmployee`; the old record's
`reviews` mapping is kept, all scalar fields are re-initialized. -/
def addedState (s : ContractState) (id nm : String) (dept : Nat) : ContractState :=
  let old := getEmp s id
  let newEmployee :=
    { old with employeeId := id, name := nm, departmentId := dept
               totalScore := 0, reviewCount := 0 }
  { s with
      employees := assocSet s.employees id newEmployee
      employeeExists := id :: s.employeeExists
      departmentEmployees := assocSet s.departmentEmployees dept
        (assocGet [] s.departmentEmployees dept ++ [id]) }

/-- The storage produced by a successful `submitReview` when the service
returned `handle`: a fresh Pending review at the derived id, replacing
whatever was stored there. -/
def submittedState (s : ContractState) (e : String)
    (handle w d snd ts : Nat) : ContractState :=
  let employee := getEmp s e
  let newReview : Review :=
    { encryptedScore := handle, weight := w, departmentId := d
      reviewer := snd, timestamp := ts, decryptedScore := 0, isVerified := false }
  let employee2 :=
    { employee with
        reviews := assocSet employee.reviews (deriveReviewId e ts) newReview }
  { s with employees := assocSet s.employees e employee2 }

/-- The storage produced by a successful `verifyReview` with clear value
`v`: the review becomes Verified and the employee's accumulators grow. -/
def verifiedState (s : ContractState) (e rid : String) (v : Nat) : ContractState :=
  let employee := getEmp s e
  let review := getRev s e rid
  let review2 := { review with decryptedScore := v, isVerified := true }
  let employee2 :=
    { employee with
        reviews := assocSet employee.reviews rid review2
        totalScore := employee.totalScore + v * review.weight
        reviewCount := employee.reviewCount + 1 }
  { s with employees := assocSet s.employees e employee2 }

/-- The storage produced by a successful `calculateFinalScore`:
`totalScore` collapsed to the truncated average, nothing else touched. -/
def calcState (s : ContractState) (e : String) : ContractState :=
  let employee := getEmp s e
  let employee2 :=
    { employee with totalScore := employee.totalScore / employee.reviewCount }
  { s with employees := assocSet s.employees e employee2 }

/- Concrete storages and traces used to instantiate the theorems. -/

/-- A registered employee of department 10 with no reviews yet. -/
def empNoReviews : Employee :=
  { employeeId := "E", name := "A", totalScore := 0, reviewCount := 0
    departmentId := 10, reviews := [] }

/-- Storage holding exactly the employee `"E"` with no reviews. -/
def stNoReviews : ContractState :=
  { employees := [("E", empNoReviews)]
    departmentEmployees := [(10, ["E"])], employeeExists := ["E"] }

/-- A Pending review of weight `2 ^ 255` whose verification overflows the
`uint256` accumulation. -/
def revBigWeight : Review :=
  { encryptedScore := 1, weight := 2 ^ 255, departmentId := 10, reviewer := 7
    timestamp := 5, decryptedScore := 0, isVerified := false }

/-- Storage whose employee `"E"` holds the big-weight Pending review `"r"`. -/
def stBigWeight : ContractState :=
  { employees := [("E", { empNoReviews with reviews := [("r", revBigWeight)] })]
    departmentEmployees := [(10, ["E"])], employeeExists := ["E"] }

/-- A Pending review of weight 2 (handle 1), ready for verification. -/
def revPending : Review :=
  { encryptedScore := 1, weight := 2, departmentId := 10, reviewer := 7
    timestamp := 5, decryptedScore := 0, isVerified := false }

/-- Storage whose employee `"E"` holds the Pending review `"r"` of weight 2. -/
def stPending : ContractState :=
  { employees := [("E", { empNoReviews with reviews := [("r", revPending)] })]
    departmentEmployees := [(10, ["E"])], employeeExists := ["E"] }

/-- An already-verified review (score 8, weight 2). -/
def revDone : Review :=
  { encryptedScore := 1, weight := 2, departmentId := 10, reviewer := 7
    timestamp := 5, decryptedScore := 8, isVerified := true }

/-- The employee `"E"` with the verified review `"r"` already folded into
the accumulators (totalScore 16, reviewCount 1). -/
def empDone : Employee :=
  { empNoReviews with totalScore := 16, reviewCount := 1
                      reviews := [("r", revDone)] }

/-- Storage whose employee `"E"` holds the verified review `"r"`, already
folded into the accumulators (totalScore 16, reviewCount 1). -/
def stDone : ContractState :=
  { employees := [("E", empDone)]
    departmentEmployees := [(10, ["E"])], employeeExists := ["E"] }

/-- The employee `"F"` holding a verified review at exactly the id a
timestamp-5 submission for `"F"` derives. -/
def empDoneF : Employee :=
  { empNoReviews with employeeId := "F", name := "B", totalScore := 16
                      reviewCount := 1
                      reviews := [(deriveReviewId "F" 5, revDone)] }

/-- Storage with two employees whose reviews are both verified: `"E"`
holds `"r"` and `"F"` holds the review a timestamp-5 submission for
`"F"` would overwrite. -/
def stTwoDone : ContractState :=
  { employees := [("E", empDone), ("F", empDoneF)]
    departmentEmployees := [(10, ["E", "F"])], employeeExists := ["E", "F"] }

/-- Two verified reviews: score 8 at weight 2 and score 6 at weight 3. -/
def revsPair : List (String × Review) :=
  [("r1", { encryptedScore := 1, weight := 2, departmentId := 10, reviewer := 7
            timestamp := 5, decryptedScore := 8, isVerified := true }),
   ("r2", { encryptedScore := 2, weight := 3, departmentId := 10, reviewer := 7
            timestamp := 6, decryptedScore := 6, isVerified := true })]

/-- The employee `"E"` with the two verified reviews accumulated:
totalScore 34 (= 8*2 + 6*3), reviewCount 2. -/
def empAgg : Employee :=
  { empNoReviews with totalScore := 34, reviewCount := 2, reviews := revsPair }

/-- Storage holding `empAgg` plus a second employee `"F"` for frame checks. -/
def stAgg : ContractState :=
  { employees := [("E", empAgg), ("F", { empNoReviews with employeeId := "F", name := "B" })]
    departmentEmployees := [(10, ["E", "F"])], employeeExists := ["E", "F"] }

/-- Trace: register `"E"`, submit a weight-2 review at timestamp 5, verify
it with clear value 8. -/
def opsGood : List Op :=
  [Op.addEmployee "E" "A" 10,
   Op.submitReview "E" 3 0 2 10 7 5,
   Op.verifyReview "E" (deriveReviewId "E" 5) 8 0]

/-- The colliding trace: after `opsGood`, a second submission for `"E"`
with the same `block.timestamp` 5 derives the same review id and
overwrites the verified review. -/
def opsColl : List Op :=
  opsGood ++ [Op.submitReview "E" 3 0 3 10 7 5]

/-! ## Association-list lemmas -/

theorem assocGet_assocSet_self {α β : Type} [DecidableEq α] (d : β)
    (m : List (α × β)) (k : α) (v : β) :
    assocGet d (assocSet m k v) k = v := by
  induction m with
  | nil => simp [assocGet, assocSet]
  | cons p rest ih =>
      obtain ⟨k', v'⟩ := p
      by_cases h : k' = k <;> simp [assocGet, assocSet, h, ih]

theorem assocGet_assocSet_ne {α β : Type} [DecidableEq α] (d : β)
    (m : List (α × β)) (k k' : α) (v : β) (h : k ≠ k') :
    assocGet d (assocSet m k v) k' = assocGet d m k' := by
  induction m with
  | nil => simp [assocGet, assocSet, h]
  | cons p rest ih =>
      obtain ⟨k'', v'⟩ := p
      by_cases h2 : k'' = k
      · subst h2; simp [assocGet, assocSet, h]
      · by_cases h3 : k'' = k' <;> simp [assocGet, assocSet, h2, h3, ih, Ne.symm h]

theorem verifiedCount_assocSet (m : List (String × Review)) (k : String) (v : Review) :
    verifiedCount (assocSet m k v) + vBit (assocGet defaultReview m k)
      = verifiedCount m + vBit v := by
  induction m with
  | nil => simp [assocSet, assocGet, verifiedCount, vBit, defaultReview]
  | cons p rest ih =>
      obtain ⟨k', r⟩ := p
      by_cases h : k' = k
      · subst h; simp [assocSet, assocGet, verifiedCount]; omega
      · simp [assocSet, assocGet, verifiedCount, h]; omega

theorem verifiedSum_assocSet (m : List (String × Review)) (k : String) (v : Review) :
    verifiedSum (assocSet m k v) + vContrib (assocGet defaultReview m k)
      = verifiedSum m + vContrib v := by
  induction m with
  | nil => simp [assocSet, assocGet, verifiedSum, vContrib, defaultReview]
  | cons p rest ih =>
      obtain ⟨k', r⟩ := p
      by_cases h : k' = k
      · subst h; simp [assocSet, assocGet, verifiedSum]; omega
      · simp [assocSet, assocGet, verifiedSum, h]; omega

/-! ## Shape of one transaction: revert, or the explicit success state -/

theorem step_shape_add (env : Env) (s : ContractState) (id nm : String) (dept : Nat) :
    step env s (Op.addEmployee id nm dept) = s ∨
    (id ∉ s.employeeExists ∧
      step env s (Op.addEmployee id nm dept) = addedState s id nm dept) := by
  by_cases h : id ∈ s.employeeExists
  · left; simp [step, runOp, addEmployee, h]
  · right; exact ⟨h, by simp [step, runOp, addEmployee, h, addedState, getEmp]⟩

theorem step_shape_submit (env : Env) (s : ContractState) (e : String)
    (ct prf w d snd ts : Nat) :
    step env s (Op.submitReview e ct prf w d snd ts) = s ∨
    (e ∈ s.employeeExists ∧ w ≠ 0 ∧ (getEmp s e).departmentId = d ∧
      ∃ handle, env.ingest ct prf = some handle ∧
        step env s (Op.submitReview e ct prf w d snd ts)
          = submittedState s e handle w d snd ts) := by
  by_cases h1 : e ∈ s.employeeExists
  · by_cases h2 : w = 0
    · left; simp [step, runOp, submitReview, h1, h2]
    · cases h3 : env.ingest ct prf with
      | none => left; simp [step, runOp, submitReview, h1, h2, h3]
      | some handle =>
          by_cases h4 : (getEmp s e).departmentId = d
          · right
            refine ⟨h1, h2, h4, handle, rfl, ?_⟩
            simp [step, runOp, submitReview, h1, h2, h3, submittedState, getEmp] at h4 ⊢
            simp [h4]
          · left
            have h4' : ¬ (assocGet defaultEmployee s.employees e).departmentId = d := h4
            simp [step, runOp, submitReview, h1, h2, h3, h4']
  · left; simp [step, runOp, submitReview, h1]

theorem step_shape_verify (env : Env) (s : ContractState) (e rid : String)
    (v prf : Nat) :
    step env s (Op.verifyReview e rid v prf) = s ∨
    (e ∈ s.employeeExists ∧ (getRev s e rid).isVerified = false ∧
      step env s (Op.verifyReview e rid v prf) = verifiedState s e rid v) := by
  by_cases h1 : e ∈ s.employeeExists
  · by_cases h2 : (getRev s e rid).isVerified
    · left
      have h2' : (assocGet defaultReview (assocGet defaultEmployee s.employees e).reviews rid).isVerified = true := h2
      simp [step, runOp, verifyReview, h1, h2']
    · have h2' : (assocGet defaultReview (assocGet defaultEmployee s.employees e).reviews rid).isVerified = false := by
        simpa [getRev, getEmp] using h2
      by_cases h3 : env.attestOk (getRev s e rid).encryptedScore v prf
      · have h3' : (env.attestOk (assocGet defaultReview (assocGet defaultEmployee s.employees e).reviews rid).encryptedScore v prf = false) = False := by
          simp [getRev, getEmp] at h3
          simp [h3]
        by_cases h4 : U32 ≤ v
        · left; simp [step, runOp, verifyReview, h1, h2', h3', h4]
        · by_cases h5 : U256 ≤ (getEmp s e).totalScore + v * (getRev s e rid).weight
          · left
            have h5' : U256 ≤ (assocGet defaultEmployee s.employees e).totalScore + v * (assocGet defaultReview (assocGet defaultEmployee s.employees e).reviews rid).weight := h5
            simp [step, runOp, verifyReview, h1, h2', h3', h4, h5']
          · by_cases h6 : U256 ≤ (getEmp s e).reviewCount + 1
            · left
              have h5' : ¬ U256 ≤ (assocGet defaultEmployee s.employees e).totalScore + v * (assocGet defaultReview (assocGet defaultEmployee s.employees e).reviews rid).weight := h5
              have h6' : U256 ≤ (assocGet defaultEmployee s.employees e).reviewCount + 1 := h6
              simp [step, runOp, verifyReview, h1, h2', h3', h4, h5', h6']
            · right
              refine ⟨h1, by simpa [getRev, getEmp] using h2, ?_⟩
              have h5' : ¬ U256 ≤ (assocGet defaultEmployee s.employees e).totalScore + v * (assocGet defaultReview (assocGet defaultEmployee s.employees e).reviews rid).weight := h5
              have h6' : ¬ U256 ≤ (assocGet defaultEmployee s.employees e).reviewCount + 1 := h6
              simp [step, runOp, verifyReview, h1, h2', h3', h4, h5', h6',
                    verifiedState, getRev, getEmp]
      · left
        have h3' : env.attestOk (assocGet defaultReview (assocGet defaultEmployee s.employees e).reviews rid).encryptedScore v prf = false := by
          simpa [getRev, getEmp] using h3
        simp [step, runOp, verifyReview, h1, h2', h3']
  · left; simp [step, runOp, verifyReview, h1]

theorem step_shape_calc (env : Env) (s : ContractState) (e : String) :
    step env s (Op.calculateFinalScore e) = s ∨
    (e ∈ s.employeeExists ∧ (getEmp s e).reviewCount ≠ 0 ∧
      step env s (Op.calculateFinalScore e) = calcState s e) := by
  by_cases h1 : e ∈ s.employeeExists
  · by_cases h2 : (getEmp s e).reviewCount = 0
    · left
      have h2' : (assocGet defaultEmployee s.employees e).reviewCount = 0 := h2
      simp [step, runOp, calculateFinalScore, h1, h2']
    · right
      have h2' : ¬ (assocGet defaultEmployee s.employees e).reviewCount = 0 := h2
      exact ⟨h1, h2, by simp [step, runOp, calculateFinalScore, h1, h2', calcState, getEmp]⟩
  · left; simp [step, runOp, calculateFinalScore, h1]

/-! ## Field lemmas for the success states -/

theorem assocGet_set_self {α β : Type} [DecidableEq α] {d : β}
    {m : List (α × β)} {k : α} {v : β} :
    assocGet d (assocSet m k v) k = v :=
  assocGet_assocSet_self d m k v

theorem assocGet_set_ne {α β : Type} [DecidableEq α] {d : β}
    {m : List (α × β)} {k k' : α} {v : β} (h : k ≠ k') :
    assocGet d (assocSet m k v) k' = assocGet d m k' :=
  assocGet_assocSet_ne d m k k' v h

theorem getEmp_added_self (s : ContractState) (id nm : String) (dept : Nat) :
    (getEmp (addedState s id nm dept) id).reviewCount = 0 ∧
    (getEmp (addedState s id nm dept) id).totalScore = 0 ∧
    (getEmp (addedState s id nm dept) id).reviews = (getEmp s id).reviews := by
  refine ⟨?_, ?_, ?_⟩ <;> simp [getEmp, addedState, assocGet_set_self]

theorem getEmp_added_ne (s : ContractState) (id nm : String) (dept : Nat)
    (f : String) (h : f ≠ id) :
    getEmp (addedState s id nm dept) f = getEmp s f := by
  simp [getEmp, addedState, assocGet_set_ne (Ne.symm h)]

theorem exists_added (s : ContractState) (id nm : String) (dept : Nat) :
    (addedState s id nm dept).employeeExists = id :: s.employeeExists := by
  simp [addedState]

theorem getEmp_submitted_self (s : ContractState) (e : String)
    (handle w d snd ts : Nat) :
    (getEmp (submittedState s e handle w d snd ts) e).reviewCount
        = (getEmp s e).reviewCount ∧
    (getEmp (submittedState s e handle w d snd ts) e).totalScore
        = (getEmp s e).totalScore ∧
    (getEmp (submittedState s e handle w d snd ts) e).reviews
        = assocSet (getEmp s e).reviews (deriveReviewId e ts)
            (⟨handle, w, d, snd, ts, 0, false⟩ : Review) := by
  refine ⟨?_, ?_, ?_⟩ <;> simp [getEmp, submittedState, assocGet_set_self]

theorem getEmp_submitted_ne (s : ContractState) (e : String)
    (handle w d snd ts : Nat) (f : String) (h : f ≠ e) :
    getEmp (submittedState s e handle w d snd ts) f = getEmp s f := by
  simp [getEmp, submittedState, assocGet_set_ne (Ne.symm h)]

theorem exists_submitted (s : ContractState) (e : String)
    (handle w d snd ts : Nat) :
    (submittedState s e handle w d snd ts).employeeExists = s.employeeExists := by
  simp [submittedState]

theorem getEmp_verified_self (s : ContractState) (e rid : String) (v : Nat) :
    (getEmp (verifiedState s e rid v) e).reviewCount
        = (getEmp s e).reviewCount + 1 ∧
    (getEmp (verifiedState s e rid v) e).totalScore
        = (getEmp s e).totalScore + v * (getRev s e rid).weight ∧
    (getEmp (verifiedState s e rid v) e).reviews
        = assocSet (getEmp s e).reviews rid
            { getRev s e rid with decryptedScore := v, isVerified := true } := by
  refine ⟨?_, ?_, ?_⟩ <;> simp [getEmp, getRev, verifiedState, assocGet_set_self]

theorem getEmp_verified_ne (s : ContractState) (e rid : String) (v : Nat)
    (f : String) (h : f ≠ e) :
    getEmp (verifiedState s e rid v) f = getEmp s f := by
  simp [getEmp, verifiedState, assocGet_set_ne (Ne.symm h)]

theorem exists_verified (s : ContractState) (e rid : String) (v : Nat) :
    (verifiedState s e rid v).employeeExists = s.employeeExists := by
  simp [verifiedState]

theorem getEmp_calc_self (s : ContractState) (e : String) :
    (getEmp (calcState s e) e).reviewCount = (getEmp s e).reviewCount ∧
    (getEmp (calcState s e) e).totalScore
        = (getEmp s e).totalScore / (getEmp s e).reviewCount ∧
    (getEmp (calcState s e) e).reviews = (getEmp s e).reviews := by
  refine ⟨?_, ?_, ?_⟩ <;> simp [getEmp, calcState, assocGet_set_self]

theorem getEmp_calc_ne (s : ContractState) (e f : String) (h : f ≠ e) :
    getEmp (calcState s e) f = getEmp s f := by
  simp [getEmp, calcState, assocGet_set_ne (Ne.symm h)]

theorem exists_calc (s : ContractState) (e : String) :
    (calcState s e).employeeExists = s.employeeExists := by
  simp [calcState]

/-! ## Preservation of the invariants by one transaction -/

theorem invAux_step (env : Env) (s : ContractState) (op : Op)
    (haux : InvAux s) : InvAux (step env s op) := by
  cases op with
  | addEmployee id nm dept =>
      rcases step_shape_add env s id nm dept with h | ⟨hn, h⟩
      · rw [h]; exact haux
      · rw [h]; intro f hf
        rw [exists_added, List.mem_cons] at hf
        push_neg at hf
        obtain ⟨hfid, hfold⟩ := hf
        rw [getEmp_added_ne s id nm dept f hfid]
        exact haux f hfold
  | submitReview e ct prf w d snd ts =>
      rcases step_shape_submit env s e ct prf w d snd ts with h | ⟨he, _, _, handle, _, h⟩
      · rw [h]; exact haux
      · rw [h]; intro f hf
        rw [exists_submitted] at hf
        have hfe : f ≠ e := fun hEq => hf (hEq ▸ he)
        rw [getEmp_submitted_ne s e handle w d snd ts f hfe]
        exact haux f hf
  | verifyReview e rid v prf =>
      rcases step_shape_verify env s e rid v prf with h | ⟨he, _, h⟩
      · rw [h]; exact haux
      · rw [h]; intro f hf
        rw [exists_verified] at hf
        have hfe : f ≠ e := fun hEq => hf (hEq ▸ he)
        rw [getEmp_verified_ne s e rid v f hfe]
        exact haux f hf
  | calculateFinalScore e =>
      rcases step_shape_calc env s e with h | ⟨he, _, h⟩
      · rw [h]; exact haux
      · rw [h]; intro f hf
        rw [exists_calc] at hf
        have hfe : f ≠ e := fun hEq => hf (hEq ▸ he)
        rw [getEmp_calc_ne s e f hfe]
        exact haux f hf

theorem countInv_step (env : Env) (s : ContractState) (op : Op)
    (haux : InvAux s) (hinv : CountInv s) (hok : opOk s op = true) :
    CountInv (step env s op) := by
  cases op with
  | addEmployee id nm dept =>
      rcases step_shape_add env s id nm dept with h | ⟨hn, h⟩
      · rw [h]; exact hinv
      · rw [h]; intro f
        by_cases hf : f = id
        · subst hf
          obtain ⟨hc, _, hr⟩ := getEmp_added_self s f nm dept
          rw [hc, hr, haux f hn]
          simp [defaultEmployee, verifiedCount]
        · rw [getEmp_added_ne s id nm dept f hf]; exact hinv f
  | submitReview e ct prf w d snd ts =>
      rcases step_shape_submit env s e ct prf w d snd ts with h | ⟨he, _, _, handle, _, h⟩
      · rw [h]; exact hinv
      · rw [h]; intro f
        by_cases hf : f = e
        · subst hf
          obtain ⟨hc, _, hr⟩ := getEmp_submitted_self s f handle w d snd ts
          rw [hc, hr]
          have hcount := verifiedCount_assocSet (getEmp s f).reviews
            (deriveReviewId f ts) (⟨handle, w, d, snd, ts, 0, false⟩ : Review)
          have hold : vBit (assocGet defaultReview (getEmp s f).reviews (deriveReviewId f ts)) = 0 := by
            simp only [opOk, Bool.not_eq_true'] at hok
            simp [vBit, getRev] at hok ⊢
            exact hok
          rw [hold] at hcount
          have hnew : vBit (⟨handle, w, d, snd, ts, 0, false⟩ : Review) = 0 := by
            simp [vBit]
          rw [hnew] at hcount
          have := hinv f
          omega
        · rw [getEmp_submitted_ne s e handle w d snd ts f hf]; exact hinv f
  | verifyReview e rid v prf =>
      rcases step_shape_verify env s e rid v prf with h | ⟨he, hnv, h⟩
      · rw [h]; exact hinv
      · rw [h]; intro f
        by_cases hf : f = e
        · subst hf
          obtain ⟨hc, _, hr⟩ := getEmp_verified_self s f rid v
          rw [hc, hr]
          have hcount := verifiedCount_assocSet (getEmp s f).reviews rid
            { getRev s f rid with decryptedScore := v, isVerified := true }
          have hold : vBit (assocGet defaultReview (getEmp s f).reviews rid) = 0 := by
            simp [vBit, getRev] at hnv ⊢
            exact hnv
          have hnew : vBit { getRev s f rid with decryptedScore := v, isVerified := true } = 1 := by
            simp [vBit]
          rw [hold, hnew] at hcount
          have := hinv f
          omega
        · rw [getEmp_verified_ne s e rid v f hf]; exact hinv f
  | calculateFinalScore e =>
      rcases step_shape_calc env s e with h | ⟨he, _, h⟩
      · rw [h]; exact hinv
      · rw [h]; intro f
        by_cases hf : f = e
        · subst hf
          obtain ⟨hc, _, hr⟩ := getEmp_calc_self s f
          rw [hc, hr]; exact hinv f
        · rw [getEmp_calc_ne s e f hf]; exact hinv f

theorem getRev_step_of_verified (env : Env) (s : ContractState) (op : Op)
    (e rid : String)
    (havoid : opAvoids e rid op = true)
    (hv : (getRev s e rid).isVerified = true) :
    getRev (step env s op) e rid = getRev s e rid := by
  cases op with
  | addEmployee id nm dept =>
      rcases step_shape_add env s id nm dept with h | ⟨hn, h⟩
      · rw [h]
      · rw [h]
        by_cases hf : e = id
        · subst hf
          obtain ⟨_, _, hr⟩ := getEmp_added_self s e nm dept
          rw [getRev, hr]; rfl
        · rw [getRev, getEmp_added_ne s id nm dept e hf]; rfl
  | submitReview e2 ct prf w d snd ts =>
      rcases step_shape_submit env s e2 ct prf w d snd ts with h | ⟨he, _, _, handle, _, h⟩
      · rw [h]
      · rw [h]
        by_cases hf : e = e2
        · subst hf
          obtain ⟨_, _, hr⟩ := getEmp_submitted_self s e handle w d snd ts
          rw [getRev, hr]
          have hne : deriveReviewId e ts ≠ rid := by
            simp [opAvoids] at havoid
            exact havoid
          rw [assocGet_set_ne hne]; rfl
        · rw [getRev, getEmp_submitted_ne s e2 handle w d snd ts e hf]; rfl
  | verifyReview e2 rid2 v prf =>
      rcases step_shape_verify env s e2 rid2 v prf with h | ⟨he, hnv, h⟩
      · rw [h]
      · rw [h]
        by_cases hf : e = e2
        · subst hf
          obtain ⟨_, _, hr⟩ := getEmp_verified_self s e rid2 v
          rw [getRev, hr]
          have hne : rid2 ≠ rid := by
            intro hEq
            rw [hEq] at hnv
            rw [hnv] at hv
            exact Bool.false_ne_true hv
          rw [assocGet_set_ne hne]; rfl
        · rw [getRev, getEmp_verified_ne s e2 rid2 v e hf]; rfl
  | calculateFinalScore e2 =>
      rcases step_shape_calc env s e2 with h | ⟨he, _, h⟩
      · rw [h]
      · rw [h]
        by_cases hf : e = e2
        · subst hf
          obtain ⟨_, _, hr⟩ := getEmp_calc_self s e
          rw [getRev, hr]; rfl
        · rw [getRev, getEmp_calc_ne s e2 e hf]; rfl

theorem sumInv_step (env : Env) (s : ContractState) (op : Op) (e : String)
    (haux : InvAux s)
    (hok : opOk s op = true)
    (hnc : opNotCalcFor e op = true)
    (hsum : SumInv s e) :
    SumInv (step env s op) e := by
  cases op with
  | addEmployee id nm dept =>
      rcases step_shape_add env s id nm dept with h | ⟨hn, h⟩
      · rw [h]; exact hsum
      · rw [h]
        by_cases hf : e = id
        · subst hf
          obtain ⟨_, ht, hr⟩ := getEmp_added_self s e nm dept
          rw [SumInv, ht, hr, haux e hn]
          simp [defaultEmployee, verifiedSum]
        · rw [SumInv, getEmp_added_ne s id nm dept e hf]; exact hsum
  | submitReview e2 ct prf w d snd ts =>
      rcases step_shape_submit env s e2 ct prf w d snd ts with h | ⟨he, _, _, handle, _, h⟩
      · rw [h]; exact hsum
      · rw [h]
        by_cases hf : e = e2
        · subst hf
          obtain ⟨_, ht, hr⟩ := getEmp_submitted_self s e handle w d snd ts
          rw [SumInv, ht, hr]
          have hcount := verifiedSum_assocSet (getEmp s e).reviews
            (deriveReviewId e ts) (⟨handle, w, d, snd, ts, 0, false⟩ : Review)
          have hold : vContrib (assocGet defaultReview (getEmp s e).reviews (deriveReviewId e ts)) = 0 := by
            simp only [opOk, Bool.not_eq_true'] at hok
            simp [vContrib, getRev] at hok ⊢
            intro hvv
            rw [hok] at hvv
            exact absurd hvv (Bool.false_ne_true)
          have hnew : vContrib (⟨handle, w, d, snd, ts, 0, false⟩ : Review) = 0 := by
            simp [vContrib]
          rw [hold, hnew] at hcount
          rw [SumInv] at hsum
          omega
        · rw [SumInv, getEmp_submitted_ne s e2 handle w d snd ts e hf]; exact hsum
  | verifyReview e2 rid v prf =>
      rcases step_shape_verify env s e2 rid v prf with h | ⟨he, hnv, h⟩
      · rw [h]; exact hsum
      · rw [h]
        by_cases hf : e = e2
        · subst hf
          obtain ⟨_, ht, hr⟩ := getEmp_verified_self s e rid v
          rw [SumInv, ht, hr]
          have hcount := verifiedSum_assocSet (getEmp s e).reviews rid
            { getRev s e rid with decryptedScore := v, isVerified := true }
          have hold : vContrib (assocGet defaultReview (getEmp s e).reviews rid) = 0 := by
            rw [getRev] at hnv
            simp [vContrib, hnv]
          have hnew : vContrib { getRev s e rid with decryptedScore := v, isVerified := true }
              = v * (getRev s e rid).weight := by
            simp [vContrib]
          rw [hold, hnew] at hcount
          rw [SumInv] at hsum
          omega
        · rw [SumInv, getEmp_verified_ne s e2 rid v e hf]; exact hsum
  | calculateFinalScore e2 =>
      rcases step_shape_calc env s e2 with h | ⟨he, _, h⟩
      · rw [h]; exact hsum
      · rw [h]
        have hf : e ≠ e2 := by
          simp only [opNotCalcFor, Bool.not_eq_true'] at hnc
          intro hEq
          subst hEq
          simp at hnc
        rw [SumInv, getEmp_calc_ne s e2 e hf]; exact hsum

/-! ## Invariants along whole traces -/

theorem invAux_init : InvAux initState := fun _ _ => rfl

theorem countInv_init : CountInv initState := fun _ => rfl

theorem sumInv_init (e : String) : SumInv initState e := rfl

theorem invAux_execFrom (env : Env) (ops : List Op) :
    ∀ s, InvAux s → InvAux (execFrom env s ops) := by
  induction ops with
  | nil => intro s h; exact h
  | cons op rest ih =>
      intro s h
      exact ih (step env s op) (invAux_step env s op h)

theorem countInv_execFrom (env : Env) (ops : List Op) :
    ∀ s, InvAux s → CountInv s → noVerifiedOverwriteB env s ops = true →
      CountInv (execFrom env s ops) := by
  induction ops with
  | nil => intro s _ h _; exact h
  | cons op rest ih =>
      intro s haux hinv hno
      simp only [noVerifiedOverwriteB, Bool.and_eq_true] at hno
      exact ih (step env s op) (invAux_step env s op haux)
        (countInv_step env s op haux hinv hno.1) hno.2

theorem getRev_execFrom_of_verified (env : Env) (e rid : String) (ops : List Op) :
    ∀ s, noSubmitDeriving e rid ops = true →
      (getRev s e rid).isVerified = true →
      getRev (execFrom env s ops) e rid = getRev s e rid := by
  induction ops with
  | nil => intro s _ _; rfl
  | cons op rest ih =>
      intro s hno hv
      simp only [noSubmitDeriving, List.all_cons, Bool.and_eq_true] at hno
      have hstep := getRev_step_of_verified env s op e rid hno.1 hv
      have hv2 : (getRev (step env s op) e rid).isVerified = true := by
        rw [hstep]; exact hv
      have := ih (step env s op) hno.2 hv2
      calc getRev (execFrom env (step env s op) rest) e rid
          = getRev (step env s op) e rid := this
        _ = getRev s e rid := hstep

theorem sumInv_execFrom (env : Env) (e : String) (ops : List Op) :
    ∀ s, InvAux s → noVerifiedOverwriteB env s ops = true →
      noCalcFor e ops = true → SumInv s e → SumInv (execFrom env s ops) e := by
  induction ops with
  | nil => intro s _ _ _ h; exact h
  | cons op rest ih =>
      intro s haux hno hnc hsum
      simp only [noVerifiedOverwriteB, Bool.and_eq_true] at hno
      simp only [noCalcFor, List.all_cons, Bool.and_eq_true] at hnc
      exact ih (step env s op) (invAux_step env s op haux) hno.2 hnc.2
        (sumInv_step env s op e haux hno.1 hnc.1 hsum)

/-! ## Success characterizations used by the claims -/

theorem verifyReview_ok (env : Env) (s : ContractState) (e rid : String)
    (v prf : Nat)
    (he : e ∈ s.employeeExists)
    (hnv : (getRev s e rid).isVerified = false)
    (hat : env.attestOk (getRev s e rid).encryptedScore v prf = true)
    (hv32 : v < U32)
    (hof : (getEmp s e).totalScore + v * (getRev s e rid).weight < U256)
    (hrc : (getEmp s e).reviewCount + 1 < U256) :
    verifyReview env s e rid v prf = Except.ok (verifiedState s e rid v) := by
  have h2' : (assocGet defaultReview (assocGet defaultEmployee s.employees e).reviews rid).isVerified = false := hnv
  have h3' : (env.attestOk (assocGet defaultReview (assocGet defaultEmployee s.employees e).reviews rid).encryptedScore v prf = false) = False := by
    have hat' : env.attestOk (assocGet defaultReview (assocGet defaultEmployee s.employees e).reviews rid).encryptedScore v prf = true := hat
    simp [hat']
  have h4 : ¬ U32 ≤ v := Nat.not_le.mpr hv32
  have h5' : ¬ U256 ≤ (assocGet defaultEmployee s.employees e).totalScore + v * (assocGet defaultReview (assocGet defaultEmployee s.employees e).reviews rid).weight := Nat.not_le.mpr hof
  have h6' : ¬ U256 ≤ (assocGet defaultEmployee s.employees e).reviewCount + 1 := Nat.not_le.mpr hrc
  simp [verifyReview, he, h2', h3', h4, h5', h6', verifiedState, getRev, getEmp]

theorem step_verify_ok (env : Env) (s : ContractState) (e rid : String)
    (v prf : Nat)
    (he : e ∈ s.employeeExists)
    (hnv : (getRev s e rid).isVerified = false)
    (hat : env.attestOk (getRev s e rid).encryptedScore v prf = true)
    (hv32 : v < U32)
    (hof : (getEmp s e).totalScore + v * (getRev s e rid).weight < U256)
    (hrc : (getEmp s e).reviewCount + 1 < U256) :
    step env s (Op.verifyReview e rid v prf) = verifiedState s e rid v := by
  simp [step, runOp, verifyReview_ok env s e rid v prf he hnv hat hv32 hof hrc]

/-! ## The claims -/

/-- C1, amended.  A verifyReview call on an existing employee and an
unverified review, whose attestation the confidential-value service
accepts, sets the review's `decryptedScore` to the claimed clear value,
sets `verified`, and increments `totalScore` by `clearValue * weight` and
`reviewCount` by 1 — **provided** the claimed value is a valid `uint32`
and neither the `totalScore` accumulation nor the `reviewCount` increment
reaches `2 ^ 256` (checked arithmetic otherwise reverts the call, see the
counterexample). -/
theorem C1_verify_accumulates (env : Env) (s : ContractState) (e rid : String)
    (v prf : Nat)
    (he : e ∈ s.employeeExists)
    (hnv : (getRev s e rid).isVerified = false)
    (hat : env.attestOk (getRev s e rid).encryptedScore v prf = true)
    (hv32 : v < U32)
    (hof : (getEmp s e).totalScore + v * (getRev s e rid).weight < U256)
    (hrc : (getEmp s e).reviewCount + 1 < U256) :
    verifyReview env s e rid v prf = Except.ok (verifiedState s e rid v) ∧
    (getRev (verifiedState s e rid v) e rid).decryptedScore = v ∧
    (getRev (verifiedState s e rid v) e rid).isVerified = true ∧
    (getEmp (verifiedState s e rid v) e).totalScore
        = (getEmp s e).totalScore + v * (getRev s e rid).weight ∧
    (getEmp (verifiedState s e rid v) e).reviewCount
        = (getEmp s e).reviewCount + 1 := by
  obtain ⟨hc, ht, hr⟩ := getEmp_verified_self s e rid v
  refine ⟨verifyReview_ok env s e rid v prf he hnv hat hv32 hof hrc, ?_, ?_, ht, hc⟩
  · rw [getRev, hr, assocGet_set_self]
  · rw [getRev, hr, assocGet_set_self]

/-- Witness for C1: the spec's scenario.  On `stPending` (employee `"E"`,
Pending review `"r"` of weight 2) a verification with clear value 8 is
accepted and accumulates; along the trace `opsGood` the employee ends with
`totalScore = 16` and `reviewCount = 1`. -/
theorem C1_verify_accumulates_witness :
    ("E" ∈ stPending.employeeExists ∧
     (getRev stPending "E" "r").isVerified = false ∧
     envAccept.attestOk (getRev stPending "E" "r").encryptedScore 8 0 = true ∧
     8 < U32 ∧
     (getEmp stPending "E").totalScore + 8 * (getRev stPending "E" "r").weight < U256 ∧
     (getEmp stPending "E").reviewCount + 1 < U256) ∧
    (verifyReview envAccept stPending "E" "r" 8 0
        = Except.ok (verifiedState stPending "E" "r" 8) ∧
     (getRev (verifiedState stPending "E" "r" 8) "E" "r").decryptedScore = 8 ∧
     (getRev (verifiedState stPending "E" "r" 8) "E" "r").isVerified = true ∧
     (getEmp (verifiedState stPending "E" "r" 8) "E").totalScore
        = (getEmp stPending "E").totalScore + 8 * (getRev stPending "E" "r").weight ∧
     (getEmp (verifiedState stPending "E" "r" 8) "E").reviewCount
        = (getEmp stPending "E").reviewCount + 1) ∧
    (getEmp (execTrace envAccept opsGood) "E").totalScore = 16 ∧
    (getEmp (execTrace envAccept opsGood) "E").reviewCount = 1 :=
  ⟨⟨by decide, by decide, by decide, by decide, by decide, by decide⟩,
   C1_verify_accumulates envAccept stPending "E" "r" 8 0
     (by decide) (by decide) (by decide) (by decide) (by decide) (by decide),
   by decide, by decide⟩

/-- Counterexample to C1 as stated: with an accepted attestation but
weight `2 ^ 255`, the checked multiplication `8 * 2 ^ 255` overflows
`uint256`, the call reverts with an arithmetic panic, and nothing is
incremented — so acceptance by the service alone does not guarantee the
claimed updates. -/
theorem C1_overflow_cex :
    envAccept.attestOk (getRev stBigWeight "E" "r").encryptedScore 8 0 = true ∧
    (getRev stBigWeight "E" "r").isVerified = false ∧
    verifyReview envAccept stBigWeight "E" "r" 8 0 = Except.error Err.overflowPanic ∧
    step envAccept stBigWeight (Op.verifyReview "E" "r" 8 0) = stBigWeight :=
  ⟨by decide, by decide, by decide, by decide⟩

/-- C2, amended.  After any sequence of public operations from deployment
in which no `submitReview` derives the review id of an already-verified
review (the unchecked timestamp-collision overwrite), every employee's
`reviewCount` equals the number of its stored reviews with
`verified == true`. -/
theorem C2_reviewCount_matches_verified (env : Env) (ops : List Op) (e : String)
    (hno : noVerifiedOverwriteB env initState ops = true) :
    (getEmp (execTrace env ops) e).reviewCount
      = verifiedCount (getEmp (execTrace env ops) e).reviews :=
  countInv_execFrom env ops initState invAux_init countInv_init hno e

/-- Witness for C2 on the collision-free trace `opsGood`. -/
theorem C2_reviewCount_matches_verified_witness :
    noVerifiedOverwriteB envAccept initState opsGood = true ∧
    (getEmp (execTrace envAccept opsGood) "E").reviewCount
      = verifiedCount (getEmp (execTrace envAccept opsGood) "E").reviews :=
  ⟨by decide, C2_reviewCount_matches_verified envAccept opsGood "E" (by decide)⟩

/-- Counterexample to C2 as stated: along the reachable trace `opsColl`
(two submissions with equal `block.timestamp` around a verification) the
verified review is overwritten back to Pending while `reviewCount` stays
1, so the invariant fails. -/
theorem C2_collision_cex :
    (getEmp (execTrace envAccept opsColl) "E").reviewCount = 1 ∧
    verifiedCount (getEmp (execTrace envAccept opsColl) "E").reviews = 0 :=
  ⟨by decide, by decide⟩

/-- C3, amended.  `verifyReview` performs no review-existence check: a
never-created `reviewId` reads as the zero-initialized review, which
passes the `verified == false` guard, and the call proceeds to attest the
zero ciphertext handle.  When the service rejects that attestation the
call fails with `InvalidProof` — not `NotFound` — and the state is
unchanged.  (With an accepting attestation it would even mutate state,
see the counterexample.) -/
theorem C3_missing_review_invalidProof (env : Env) (s : ContractState)
    (e rid : String) (v prf : Nat)
    (he : e ∈ s.employeeExists)
    (hmiss : getRev s e rid = defaultReview)
    (hrej : env.attestOk 0 v prf = false) :
    verifyReview env s e rid v prf = Except.error Err.invalidProof ∧
    step env s (Op.verifyReview e rid v prf) = s := by
  have h2' : (assocGet defaultReview (assocGet defaultEmployee s.employees e).reviews rid).isVerified = false := by
    rw [show assocGet defaultReview (assocGet defaultEmployee s.employees e).reviews rid = defaultReview from hmiss]
    rfl
  have h3' : env.attestOk (assocGet defaultReview (assocGet defaultEmployee s.employees e).reviews rid).encryptedScore v prf = false := by
    rw [show assocGet defaultReview (assocGet defaultEmployee s.employees e).reviews rid = defaultReview from hmiss]
    exact hrej
  have herr : verifyReview env s e rid v prf = Except.error Err.invalidProof := by
    simp [verifyReview, he, h2', h3']
  exact ⟨herr, by simp [step, runOp, herr]⟩

/-- Witness for C3 on the employee with no reviews and the rejecting
service. -/
theorem C3_missing_review_invalidProof_witness :
    ("E" ∈ stNoReviews.employeeExists ∧
     getRev stNoReviews "E" "ghost" = defaultReview ∧
     envReject.attestOk 0 8 0 = false) ∧
    (verifyReview envReject stNoReviews "E" "ghost" 8 0
        = Except.error Err.invalidProof ∧
     step envReject stNoReviews (Op.verifyReview "E" "ghost" 8 0) = stNoReviews) :=
  ⟨⟨by decide, by decide, by decide⟩,
   C3_missing_review_invalidProof envReject stNoReviews "E" "ghost" 8 0
     (by decide) (by decide) (by decide)⟩

/-- Counterexample to C3 as stated: the call on a never-created reviewId
does not revert with `NotFound`; with an attestation the service accepts
for the zero handle it succeeds outright and increments `reviewCount`,
so the employee's totals are not left unchanged either. -/
theorem C3_no_notfound_cex :
    getRev stNoReviews "E" "ghost" = defaultReview ∧
    verifyReview envAccept stNoReviews "E" "ghost" 8 0 ≠ Except.error Err.notFound ∧
    (getEmp (step envAccept stNoReviews (Op.verifyReview "E" "ghost" 8 0)) "E").reviewCount = 1 :=
  ⟨by decide, by decide, by decide⟩

/-- C4, amended.  A verified review's stored record (its `verified` flag,
`decryptedScore` and every other field) is preserved by every sequence of
public operations in which no `submitReview` derives that review's own id
(employee `e`, a timestamp whose derived id is `rid`); submissions
colliding with other reviews — even verified ones of other employees —
remain allowed.  In particular the review is never deleted and
`verifyReview` can never flip it back.  The unchecked timestamp-collision
overwrite of the review itself is the only escape (see the
counterexample). -/
theorem C4_verified_terminal (env : Env) (s : ContractState) (ops : List Op)
    (e rid : String)
    (hno : noSubmitDeriving e rid ops = true)
    (hv : (getRev s e rid).isVerified = true) :
    getRev (execFrom env s ops) e rid = getRev s e rid :=
  getRev_execFrom_of_verified env e rid ops s hno hv

/-- Witness for C4: from `stTwoDone`, a submission colliding with
employee `"F"`'s verified review (which it does reset), a repeated
verification attempt on `"E"`'s review and a finalization still leave the
verified review `("E", "r")` untouched — the hypothesis constrains only
that review's own id. -/
theorem C4_verified_terminal_witness :
    noSubmitDeriving "E" "r"
        [Op.submitReview "F" 3 0 4 10 7 5,
         Op.verifyReview "E" "r" 9 0,
         Op.calculateFinalScore "E"] = true ∧
    (getRev stTwoDone "E" "r").isVerified = true ∧
    (getRev (execFrom envAccept stTwoDone
        [Op.submitReview "F" 3 0 4 10 7 5,
         Op.verifyReview "E" "r" 9 0,
         Op.calculateFinalScore "E"]) "F" (deriveReviewId "F" 5)).isVerified = false ∧
    getRev (execFrom envAccept stTwoDone
        [Op.submitReview "F" 3 0 4 10 7 5,
         Op.verifyReview "E" "r" 9 0,
         Op.calculateFinalScore "E"]) "E" "r" = getRev stTwoDone "E" "r" :=
  ⟨by decide, by decide, by decide,
   C4_verified_terminal envAccept stTwoDone
     [Op.submitReview "F" 3 0 4 10 7 5,
      Op.verifyReview "E" "r" 9 0,
      Op.calculateFinalScore "E"] "E" "r" (by decide) (by decide)⟩

/-- Counterexample to C4 as stated: along `opsGood` the review at the
derived id is verified, yet the one further public `submitReview` of
`opsColl` (equal timestamp) resets its `verified` flag to false and its
`decryptedScore` to 0. -/
theorem C4_terminal_cex :
    (getRev (execTrace envAccept opsGood) "E" (deriveReviewId "E" 5)).isVerified = true ∧
    (getRev (execTrace envAccept opsGood) "E" (deriveReviewId "E" 5)).decryptedScore = 8 ∧
    (getRev (execTrace envAccept opsColl) "E" (deriveReviewId "E" 5)).isVerified = false ∧
    (getRev (execTrace envAccept opsColl) "E" (deriveReviewId "E" 5)).decryptedScore = 0 :=
  ⟨by decide, by decide, by decide, by decide⟩

/-- C5.  For an existing employee with nonzero `reviewCount`,
`calculateFinalScore` succeeds and overwrites `totalScore` with the
truncating quotient `totalScore / reviewCount`. -/
theorem C5_calc_divides (env : Env) (s : ContractState) (e : String)
    (he : e ∈ s.employeeExists)
    (hc : (getEmp s e).reviewCount ≠ 0) :
    calculateFinalScore s e = Except.ok (calcState s e) ∧
    (getEmp (step env s (Op.calculateFinalScore e)) e).totalScore
        = (getEmp s e).totalScore / (getEmp s e).reviewCount := by
  have hc' : ¬ (assocGet defaultEmployee s.employees e).reviewCount = 0 := hc
  have hok : calculateFinalScore s e = Except.ok (calcState s e) := by
    simp [calculateFinalScore, he, hc', calcState, getEmp]
  refine ⟨hok, ?_⟩
  have hstep : step env s (Op.calculateFinalScore e) = calcState s e := by
    simp [step, runOp, hok]
  rw [hstep]
  exact (getEmp_calc_self s e).2.1

/-- Witness for C5: the spec's scenario.  On `stAgg` (totalScore 34 from
verified scores 8*2 and 6*3, reviewCount 2) the first call collapses
`totalScore` to 17 and a second call to 8 — the destructive
non-idempotence is reproduced, not fixed. -/
theorem C5_calc_divides_witness :
    ("E" ∈ stAgg.employeeExists ∧ (getEmp stAgg "E").reviewCount ≠ 0) ∧
    (calculateFinalScore stAgg "E" = Except.ok (calcState stAgg "E") ∧
     (getEmp (step envAccept stAgg (Op.calculateFinalScore "E")) "E").totalScore
        = (getEmp stAgg "E").totalScore / (getEmp stAgg "E").reviewCount) ∧
    (getEmp (step envAccept stAgg (Op.calculateFinalScore "E")) "E").totalScore = 17 ∧
    (getEmp (step envAccept (step envAccept stAgg (Op.calculateFinalScore "E"))
        (Op.calculateFinalScore "E")) "E").totalScore = 8 :=
  ⟨⟨by decide, by decide⟩,
   C5_calc_divides envAccept stAgg "E" (by decide) (by decide),
   by decide, by decide⟩

/-- C6, amended.  In every state reached from deployment by a trace that
never overwrites an already-verified review (the timestamp-collision case)
and never calls `calculateFinalScore` for the employee, the employee's
`totalScore` equals `Σ decryptedScore * weight` over its verified
reviews. -/
theorem C6_totalScore_weighted_sum (env : Env) (ops : List Op) (e : String)
    (hno : noVerifiedOverwriteB env initState ops = true)
    (hnc : noCalcFor e ops = true) :
    (getEmp (execTrace env ops) e).totalScore
      = verifiedSum (getEmp (execTrace env ops) e).reviews :=
  sumInv_execFrom env e ops initState invAux_init hno hnc (sumInv_init e)

/-- Witness for C6 on the collision-free trace `opsGood`
(totalScore 16 = 8 * 2). -/
theorem C6_totalScore_weighted_sum_witness :
    noVerifiedOverwriteB envAccept initState opsGood = true ∧
    noCalcFor "E" opsGood = true ∧
    (getEmp (execTrace envAccept opsGood) "E").totalScore
      = verifiedSum (getEmp (execTrace envAccept opsGood) "E").reviews :=
  ⟨by decide, by decide,
   C6_totalScore_weighted_sum envAccept opsGood "E" (by decide) (by decide)⟩

/-- Counterexample to C6 as stated: along the reachable trace `opsColl`
no finalization has happened for `"E"`, yet `totalScore` is 16 while the
verified weighted sum is 0, because the colliding submission erased the
verified review without rolling back the accumulator. -/
theorem C6_collision_cex :
    noCalcFor "E" opsColl = true ∧
    (getEmp (execTrace envAccept opsColl) "E").totalScore = 16 ∧
    verifiedSum (getEmp (execTrace envAccept opsColl) "E").reviews = 0 :=
  ⟨by decide, by decide, by decide⟩

/-- C7.  Any `verifyReview` call against an already-verified review of an
existing employee reverts with `AlreadyVerified` — before the attestation
is even consulted, hence for every oracle, claimed value and proof — and
leaves the state (in particular `totalScore` and `reviewCount`)
unchanged. -/
theorem C7_already_verified_rejected (env : Env) (s : ContractState)
    (e rid : String) (v prf : Nat)
    (he : e ∈ s.employeeExists)
    (hv : (getRev s e rid).isVerified = true) :
    verifyReview env s e rid v prf = Except.error Err.alreadyVerified ∧
    step env s (Op.verifyReview e rid v prf) = s := by
  have hv' : (assocGet defaultReview (assocGet defaultEmployee s.employees e).reviews rid).isVerified = true := hv
  have herr : verifyReview env s e rid v prf = Except.error Err.alreadyVerified := by
    simp [verifyReview, he, hv']
  exact ⟨herr, by simp [step, runOp, herr]⟩

/-- Witness for C7 on `stDone`, with the all-accepting oracle: even a
valid-looking attestation cannot re-verify. -/
theorem C7_already_verified_rejected_witness :
    ("E" ∈ stDone.employeeExists ∧ (getRev stDone "E" "r").isVerified = true) ∧
    (verifyReview envAccept stDone "E" "r" 9 0 = Except.error Err.alreadyVerified ∧
     step envAccept stDone (Op.verifyReview "E" "r" 9 0) = stDone) :=
  ⟨⟨by decide, by decide⟩,
   C7_already_verified_rejected envAccept stDone "E" "r" 9 0 (by decide) (by decide)⟩

/-- C8, amended.  The department check sits after the confidential-value
ingest in `submitReview`, so `InvalidProof` takes precedence over
`DepartmentMismatch` (see the counterexample); when the ingest accepts,
an existing employee, a positive weight and a mismatched `departmentId`
make the call revert with `DepartmentMismatch` and no review is created
or overwritten. -/
theorem C8_department_mismatch (env : Env) (s : ContractState) (e : String)
    (ct prf w d snd ts handle : Nat)
    (he : e ∈ s.employeeExists)
    (hw : w ≠ 0)
    (hi : env.ingest ct prf = some handle)
    (hd : (getEmp s e).departmentId ≠ d) :
    submitReview env s e ct prf w d snd ts = Except.error Err.departmentMismatch ∧
    step env s (Op.submitReview e ct prf w d snd ts) = s := by
  have hd' : ¬ (assocGet defaultEmployee s.employees e).departmentId = d := hd
  have herr : submitReview env s e ct prf w d snd ts = Except.error Err.departmentMismatch := by
    simp [submitReview, he, hw, hi, hd']
  exact ⟨herr, by simp [step, runOp, herr]⟩

/-- Witness for C8: employee of department 10, submission claiming
department 11 with an accepted proof. -/
theorem C8_department_mismatch_witness :
    ("E" ∈ stNoReviews.employeeExists ∧ (1 : Nat) ≠ 0 ∧
     envAccept.ingest 0 0 = some 1 ∧ (getEmp stNoReviews "E").departmentId ≠ 11) ∧
    (submitReview envAccept stNoReviews "E" 0 0 1 11 0 0
        = Except.error Err.departmentMismatch ∧
     step envAccept stNoReviews (Op.submitReview "E" 0 0 1 11 0 0) = stNoReviews) :=
  ⟨⟨by decide, by decide, by decide, by decide⟩,
   C8_department_mismatch envAccept stNoReviews "E" 0 0 1 11 0 0 1
     (by decide) (by decide) (by decide) (by decide)⟩

/-- Counterexample to C8's precedence part: with a mismatched department
and a rejected proof, the contract reverts at the line-46 ingest with
`InvalidProof` — the department check at line 49 is never reached, so it
does not take precedence over `InvalidProof`. -/
theorem C8_precedence_cex :
    (getEmp stNoReviews "E").departmentId ≠ 11 ∧
    submitReview envReject stNoReviews "E" 0 0 1 11 0 0
        = Except.error Err.invalidProof ∧
    Err.invalidProof ≠ Err.departmentMismatch :=
  ⟨by decide, by decide, by decide⟩

/-- C9.  `calculateFinalScore` on an existing employee with
`reviewCount = 0` always reverts with `EmptyAggregation` and leaves the
state (in particular `totalScore`) unchanged. -/
theorem C9_empty_aggregation (env : Env) (s : ContractState) (e : String)
    (he : e ∈ s.employeeExists)
    (hc : (getEmp s e).reviewCount = 0) :
    calculateFinalScore s e = Except.error Err.emptyAggregation ∧
    step env s (Op.calculateFinalScore e) = s := by
  have hc' : (assocGet defaultEmployee s.employees e).reviewCount = 0 := hc
  have herr : calculateFinalScore s e = Except.error Err.emptyAggregation := by
    simp [calculateFinalScore, he, hc']
  exact ⟨herr, by simp [step, runOp, herr]⟩

/-- Witness for C9 on the employee with no verified reviews. -/
theorem C9_empty_aggregation_witness :
    ("E" ∈ stNoReviews.employeeExists ∧ (getEmp stNoReviews "E").reviewCount = 0) ∧
    (calculateFinalScore stNoReviews "E" = Except.error Err.emptyAggregation ∧
     step envAccept stNoReviews (Op.calculateFinalScore "E") = stNoReviews) :=
  ⟨⟨by decide, by decide⟩,
   C9_empty_aggregation envAccept stNoReviews "E" (by decide) (by decide)⟩

/-- C10.  A successful `calculateFinalScore` for an employee changes only
that employee's `totalScore`: its `reviewCount`, `name`, `departmentId`
and stored reviews, every other employee's record, the department index
and the existence flags are exactly as before. -/
theorem C10_calc_frame (env : Env) (s : ContractState) (e f : String)
    (he : e ∈ s.employeeExists)
    (hc : (getEmp s e).reviewCount ≠ 0)
    (hf : f ≠ e) :
    isOkE (calculateFinalScore s e) = true ∧
    (getEmp (step env s (Op.calculateFinalScore e)) e).reviewCount = (getEmp s e).reviewCount ∧
    (getEmp (step env s (Op.calculateFinalScore e)) e).name = (getEmp s e).name ∧
    (getEmp (step env s (Op.calculateFinalScore e)) e).departmentId = (getEmp s e).departmentId ∧
    (getEmp (step env s (Op.calculateFinalScore e)) e).reviews = (getEmp s e).reviews ∧
    getEmp (step env s (Op.calculateFinalScore e)) f = getEmp s f ∧
    (step env s (Op.calculateFinalScore e)).departmentEmployees = s.departmentEmployees ∧
    (step env s (Op.calculateFinalScore e)).employeeExists = s.employeeExists := by
  have hc' : ¬ (assocGet defaultEmployee s.employees e).reviewCount = 0 := hc
  have hok : calculateFinalScore s e = Except.ok (calcState s e) := by
    simp [calculateFinalScore, he, hc', calcState, getEmp]
  have hstep : step env s (Op.calculateFinalScore e) = calcState s e := by
    simp [step, runOp, hok]
  refine ⟨by simp [isOkE, hok], ?_, ?_, ?_, ?_, ?_, ?_, ?_⟩ <;>
    simp [hstep, getEmp, calcState, assocGet_set_self, assocGet_set_ne (Ne.symm hf)]

/-- Witness for C10 on `stAgg`: finalizing `"E"` leaves `"F"`, the index
and all of `"E"`'s non-`totalScore` fields intact. -/
theorem C10_calc_frame_witness :
    ("E" ∈ stAgg.employeeExists ∧ (getEmp stAgg "E").reviewCount ≠ 0 ∧
     "F" ≠ "E") ∧
    (isOkE (calculateFinalScore stAgg "E") = true ∧
     (getEmp (step envAccept stAgg (Op.calculateFinalScore "E")) "E").reviewCount = (getEmp stAgg "E").reviewCount ∧
     (getEmp (step envAccept stAgg (Op.calculateFinalScore "E")) "E").name = (getEmp stAgg "E").name ∧
     (getEmp (step envAccept stAgg (Op.calculateFinalScore "E")) "E").departmentId = (getEmp stAgg "E").departmentId ∧
     (getEmp (step envAccept stAgg (Op.calculateFinalScore "E")) "E").reviews = (getEmp stAgg "E").reviews ∧
     getEmp (step envAccept stAgg (Op.calculateFinalScore "E")) "F" = getEmp stAgg "F" ∧
     (step envAccept stAgg (Op.calculateFinalScore "E")).departmentEmployees = stAgg.departmentEmployees ∧
     (step envAccept stAgg (Op.calculateFinalScore "E")).employeeExists = stAgg.employeeExists) :=
  ⟨⟨by decide, by decide, by decide⟩,
   C10_calc_frame envAccept stAgg "E" "F" (by decide) (by decide) (by decide)⟩
